import Mathlib

/-!
Shallow embedding of the wtf-prometheus-agent evaluation core:
bound predicates (src/bound.rs), the per-endpoint threshold engine
(src/element.rs), and the alert matcher (src/alert.rs).

Modelling conventions:
* f64 is modelled by `F64`: an exact rational together with the IEEE special
  values +inf, -inf and NaN.  Arithmetic on finite values is exact (rounding
  is abstracted away); division by zero, operations on infinities and NaN
  propagation follow IEEE 754 semantics, because the code relies on them
  (a 0/0 rate is NaN and NaN comparisons are false).  -0 is identified with 0.
* chrono::DateTime<Utc> and chrono::Duration are modelled as integer
  microsecond counts.  Duration::num_microseconds returns None exactly when
  the count does not fit in an i64, matching chrono; the unwrap of that
  Option in the source is modelled by Bound.check returning an Option, with
  none standing for a panic.
* Rust HashMap fields are modelled as association lists with first-match
  lookup; reachable states never carry duplicate keys.
* Network fetching and JSON decoding are excluded collaborators; the alert
  checker is modelled from the decoded response onward.
-/

namespace WPA

/-- Model of f64: exact rationals plus the IEEE special values. -/
inductive F64 where
  | fin (q : ℚ)
  | inf
  | ninf
  | nan
deriving DecidableEq, Repr

/-- Exact rational subtraction, written through Rat.divInt so that it
evaluates by kernel reduction; ratSub_eq_sub shows it is ℚ subtraction. -/
def ratSub (a b : ℚ) : ℚ :=
  Rat.divInt (a.num * (b.den : ℤ) - b.num * (a.den : ℤ)) ((a.den : ℤ) * (b.den : ℤ))

/-- Exact rational division, written through Rat.divInt so that it evaluates
by kernel reduction; ratDiv_eq_div shows it is ℚ division away from 0. -/
def ratDiv (a b : ℚ) : ℚ :=
  Rat.divInt (a.num * (b.den : ℤ)) ((a.den : ℤ) * b.num)

/-- IEEE subtraction on the model (exact on finite values). -/
def F64.sub : F64 → F64 → F64
  | .nan, _ => .nan
  | _, .nan => .nan
  | .fin a, .fin b => .fin (ratSub a b)
  | .fin _, .inf => .ninf
  | .fin _, .ninf => .inf
  | .inf, .fin _ => .inf
  | .inf, .inf => .nan
  | .inf, .ninf => .inf
  | .ninf, .fin _ => .ninf
  | .ninf, .inf => .ninf
  | .ninf, .ninf => .nan

/-- IEEE division on the model (exact on finite values; 0/0 is NaN,
x/0 is a signed infinity for x different from 0, x/inf is 0). -/
def F64.div : F64 → F64 → F64
  | .nan, _ => .nan
  | _, .nan => .nan
  | .fin a, .fin b =>
      if b = 0 then
        if a = 0 then .nan else if 0 < a then .inf else .ninf
      else .fin (ratDiv a b)
  | .fin _, .inf => .fin 0
  | .fin _, .ninf => .fin 0
  | .inf, .fin b => if b < 0 then .ninf else .inf
  | .inf, .inf => .nan
  | .inf, .ninf => .nan
  | .ninf, .fin b => if b < 0 then .inf else .ninf
  | .ninf, .inf => .nan
  | .ninf, .ninf => .nan

/-- IEEE strict less-than: any comparison involving NaN is false. -/
def F64.blt : F64 → F64 → Bool
  | .nan, _ => false
  | _, .nan => false
  | .fin a, .fin b => decide (a < b)
  | .fin _, .inf => true
  | .fin _, .ninf => false
  | .inf, _ => false
  | .ninf, .ninf => false
  | .ninf, _ => true

/-- IEEE strict greater-than: a > b is b < a, also for the special values. -/
def F64.bgt (a b : F64) : Bool := F64.blt b a

/-- Model of chrono::DateTime<Utc>: microseconds since the epoch. -/
abbrev Time := ℤ

/-- Model of chrono::Duration: a signed microsecond count. -/
abbrev Duration := ℤ

def i64Min : ℤ := -9223372036854775808

def i64Max : ℤ := 9223372036854775807

/-- chrono Duration::num_microseconds: the microsecond count when it fits in
an i64, otherwise None (a chrono Duration may hold up to i64::MAX
milliseconds, so the microsecond count can overflow). -/
def numMicroseconds (d : Duration) : Option ℤ :=
  if i64Min ≤ d ∧ d ≤ i64Max then some d else none

/-- One cumulative histogram bucket (prometheus_parse::HistogramCount). -/
structure HistogramCount where
  less_than : F64
  count : F64
deriving DecidableEq, Repr

/-- prometheus_parse::Value.  Summary payloads are quantile/value pairs,
never inspected by the core. -/
inductive Value where
  | counter (v : F64)
  | gauge (v : F64)
  | histogram (buckets : List HistogramCount)
  | summary (quantiles : List (F64 × F64))
  | untyped (v : F64)
deriving DecidableEq, Repr

/-- src/bound.rs: enum Bound. -/
inductive Bound where
  | absLower (limit : F64)
  | absUpper (limit : F64)
  | rateLower (min_increment : F64) (time_period : Duration)
  | rateUpper (max_increment : F64) (time_period : Duration)
deriving DecidableEq, Repr

/-- src/bound.rs: Bound::is_relative. -/
def Bound.is_relative : Bound → Bool
  | .absLower _ | .absUpper _ => false
  | .rateLower _ _ | .rateUpper _ _ => true

/-- Scalar payload of a Counter or Gauge, as matched inside diffs. -/
def numOf : Value → Option F64
  | .counter n => some n
  | .gauge n => some n
  | _ => none

/-- src/bound.rs: the nested fn diffs inside Bound::check.  Returns the
increment and the elapsed duration, or none when either side is not a
Counter/Gauge or no previous time was supplied. -/
def diffs (value : Value) (time : Time) (old_value : Option Value)
    (old_time : Option Time) : Option (F64 × Duration) :=
  match numOf value with
  | none => none
  | some num =>
    match old_value.bind numOf with
    | none => none
    | some old_num =>
      match old_time with
      | none => none
      | some ot => some (F64.sub num old_num, time - ot)

/-- src/bound.rs: Bound::check.  The result is an Option: none models the
panic of the unwrap on Duration::num_microseconds when a microsecond count
overflows i64. -/
def Bound.check (b : Bound) (value : Value) (time : Time)
    (old_value : Option Value) (old_time : Option Time) : Option Bool :=
  match b with
  | .absLower lower_bound =>
    some (match value with
      | .counter _ => false
      | .gauge num => F64.blt num lower_bound
      | .histogram h =>
          h.any fun hc =>
            F64.blt hc.less_than lower_bound && F64.bgt hc.count (.fin 0)
      | .summary _ => false
      | .untyped _ => false)
  | .absUpper upper_bound =>
    some (match value with
      | .counter num => F64.bgt num upper_bound
      | .gauge num => F64.bgt num upper_bound
      | .histogram h =>
          h.any fun hc =>
            F64.bgt hc.less_than upper_bound && F64.bgt hc.count (.fin 0)
      | .summary _ => false
      | .untyped _ => false)
  | .rateLower min_increment time_period =>
    match diffs value time old_value old_time with
    | none => some false
    | some (increment, dur) =>
      match numMicroseconds time_period with
      | none => none
      | some tp =>
        match numMicroseconds dur with
        | none => none
        | some d =>
          some (F64.blt (F64.div increment (.fin d)) (F64.div min_increment (.fin tp)))
  | .rateUpper max_increment time_period =>
    match diffs value time old_value old_time with
    | none => some false
    | some (increment, dur) =>
      match numMicroseconds time_period with
      | none => none
      | some tp =>
        match numMicroseconds dur with
        | none => none
        | some d =>
          some (F64.bgt (F64.div increment (.fin d)) (F64.div max_increment (.fin tp)))

/-- prometheus_parse::Sample (the id field of labels is kept abstract as a
key/value list; check_filters only reads metric, value and timestamp). -/
structure Sample where
  metric : String
  value : Value
  labels : List (String × String)
  timestamp : Time
deriving DecidableEq, Repr

/-- First-match lookup in an association list (model of HashMap::get). -/
def lookupAssoc {α : Type} : List (String × α) → String → Option α
  | [], _ => none
  | p :: rest, key => if p.1 = key then some p.2 else lookupAssoc rest key

/-- Overwrite the value stored at a key (model of writing through an
occupied HashMap entry). -/
def updateAssoc {α : Type} : List (String × α) → String → α → List (String × α)
  | [], _, _ => []
  | p :: rest, key, v =>
    (if p.1 = key then (key, v) else p) :: updateAssoc rest key v

/-- src/element.rs: the body of the bounds.iter().any closure inside
ElementHealth::check_filters, evaluating the bounds of one sample in order
with short-circuit OR.  For a relative bound, the entry API first yields the
stored previous sample (inserting the current sample when the key is
absent), the bound is checked against it, and the entry is then overwritten
with the current sample before the next bound runs.  none models a panic
propagating out of Bound::check. -/
def checkBounds (sample : Sample) :
    List Bound → List (String × Sample) → Option (Bool × List (String × Sample))
  | [], st => some (false, st)
  | bound :: rest, st =>
    if bound.is_relative then
      let existing :=
        match lookupAssoc st sample.metric with
        | some s => s
        | none => sample
      let st1 :=
        match lookupAssoc st sample.metric with
        | some _ => st
        | none => st ++ [(sample.metric, sample)]
      match bound.check sample.value sample.timestamp
          (some existing.value) (some existing.timestamp) with
      | none => none
      | some res =>
        let st2 := updateAssoc st1 sample.metric sample
        if res then some (true, st2) else checkBounds sample rest st2
    else
      match bound.check sample.value sample.timestamp none none with
      | none => none
      | some res => if res then some (true, st) else checkBounds sample rest st

/-- src/element.rs: the samples.into_iter().filter loop of
ElementHealth::check_filters, threading the relative state through the
samples in order.  A sample whose metric has no entry in the filter set is
dropped without touching the state. -/
def checkFiltersGo (fs : List (String × List Bound)) :
    List Sample → List (String × Sample) →
    Option (List Sample × List (String × Sample))
  | [], st => some ([], st)
  | sample :: rest, st =>
    match lookupAssoc fs sample.metric with
    | none => checkFiltersGo fs rest st
    | some bounds =>
      match checkBounds sample bounds st with
      | none => none
      | some (trig, st1) =>
        match checkFiltersGo fs rest st1 with
        | none => none
        | some (out, st2) => some (if trig then sample :: out else out, st2)

/-- src/element.rs: ElementHealth, restricted to the fields the evaluation
core reads (the url and HTTP client belong to the excluded collaborator). -/
structure ElementHealth where
  filter_set : List (String × List Bound)
  relative_state : List (String × Sample)
deriving DecidableEq, Repr

/-- src/element.rs: ElementHealth::check_filters.  Returns the triggered
samples and the engine after the call; none models a panic from
Bound::check. -/
def ElementHealth.check_filters (eh : ElementHealth) (samples : List Sample) :
    Option (List Sample × ElementHealth) :=
  match checkFiltersGo eh.filter_set samples eh.relative_state with
  | none => none
  | some (out, st) => some (out, { eh with relative_state := st })

/-- src/alert.rs: AlertFilter. -/
structure AlertFilter where
  name : String
  labels : List (String × String)
deriving DecidableEq, Repr

/-- src/alert.rs: Alert (annotations, active_at and value are carried but
never read by the matcher). -/
structure Alert where
  labels : List (String × String)
  annotations : List (String × String)
  state : String
  active_at : String
  value : String
deriving DecidableEq, Repr

/-- src/alert.rs: Alert::check.  The early-return match on the alertname
label, then the firing-state test and the label-subset test. -/
def Alert.check (a : Alert) (filter : AlertFilter) : Bool :=
  match lookupAssoc a.labels "alertname" with
  | none => false
  | some name =>
    if name = filter.name then
      decide (a.state = "firing") &&
        (if !filter.labels.isEmpty then
          filter.labels.all fun kv =>
            match lookupAssoc a.labels kv.1 with
            | some v => decide (kv.2 = v)
            | none => false
        else true)
    else false

/-- src/alert.rs: the decoded alerts API payload, data field. -/
structure AlertsResponseBody where
  alerts : List Alert
deriving DecidableEq, Repr

/-- src/alert.rs: the decoded alerts API payload. -/
structure AlertsResponse where
  status : String
  data : AlertsResponseBody
deriving DecidableEq, Repr

/-- src/alert.rs: AlertChecker, restricted to its filter collection. -/
structure AlertChecker where
  alert_set : List AlertFilter
deriving DecidableEq, Repr

/-- src/alert.rs: AlertChecker::check from the decoded response onward
(the HTTP fetch and JSON decode are the excluded collaborators): bail when
the status is not success, otherwise keep the alerts matched by at least
one filter. -/
def AlertChecker.check (c : AlertChecker) (resp : AlertsResponse) :
    Except String (List Alert) :=
  if resp.status ≠ "success" then
    Except.error "AlertChecker: response indicates error"
  else
    Except.ok (resp.data.alerts.filter fun a => c.alert_set.any fun f => a.check f)

/-- The pure trigger decision of a non-relative bound: what Bound::check
computes in its AbsLower and AbsUpper arms, which read only the current
value.  Used to state that non-relative checking ignores time and state. -/
def absTrigger (b : Bound) (v : Value) : Bool :=
  match b with
  | .absLower lower_bound =>
    (match v with
      | .counter _ => false
      | .gauge num => F64.blt num lower_bound
      | .histogram h =>
          h.any fun hc =>
            F64.blt hc.less_than lower_bound && F64.bgt hc.count (.fin 0)
      | .summary _ => false
      | .untyped _ => false)
  | .absUpper upper_bound =>
    (match v with
      | .counter num => F64.bgt num upper_bound
      | .gauge num => F64.bgt num upper_bound
      | .histogram h =>
          h.any fun hc =>
            F64.bgt hc.less_than upper_bound && F64.bgt hc.count (.fin 0)
      | .summary _ => false
      | .untyped _ => false)
  | .rateLower _ _ => false
  | .rateUpper _ _ => false

/-- The time_period of a rate bound fits in i64 microseconds, so the unwrap
inside Bound::check cannot panic on it.  Vacuous for absolute bounds. -/
def tpOk : Bound → Prop
  | .rateLower _ tp => i64Min ≤ tp ∧ tp ≤ i64Max
  | .rateUpper _ tp => i64Min ≤ tp ∧ tp ≤ i64Max
  | .absLower _ => True
  | .absUpper _ => True

/-- Specification-side annotated run of the check_filters loop: every input
sample is paired with its trigger flag (false when its metric has no entry
in the filter set), in input order, threading the relative state exactly as
checkFiltersGo does. -/
def checkFiltersFlags (fs : List (String × List Bound)) :
    List Sample → List (String × Sample) →
    Option (List (Sample × Bool) × List (String × Sample))
  | [], st => some ([], st)
  | sample :: rest, st =>
    match lookupAssoc fs sample.metric with
    | none =>
      match checkFiltersFlags fs rest st with
      | none => none
      | some (ps, st2) => some ((sample, false) :: ps, st2)
    | some bounds =>
      match checkBounds sample bounds st with
      | none => none
      | some (trig, st1) =>
        match checkFiltersFlags fs rest st1 with
        | none => none
        | some (ps, st2) => some ((sample, trig) :: ps, st2)

/-! Bridging lemmas: the divInt-based scalar operations are exactly ℚ
subtraction and division. -/

theorem ratSub_eq_sub (a b : ℚ) : ratSub a b = a - b := by
  rw [ratSub, ← Rat.divInt_sub_divInt _ _ (Int.natCast_ne_zero.mpr a.den_nz)
    (Int.natCast_ne_zero.mpr b.den_nz), Rat.num_divInt_den, Rat.num_divInt_den]

theorem ratDiv_eq_div (a b : ℚ) : ratDiv a b = a / b :=
  (Rat.div_def' a b).symm

/-! Lemmas about the float model. -/

theorem F64.blt_nan_right (x : F64) : F64.blt x .nan = false := by
  cases x <;> rfl

theorem F64.blt_nan_left (x : F64) : F64.blt .nan x = false := by
  cases x <;> rfl

theorem F64.bgt_nan_left (x : F64) : F64.bgt .nan x = false :=
  F64.blt_nan_right x

/-- Subtracting a Counter/Gauge scalar from itself and dividing by a zero
elapsed time always produces NaN (the degenerate 0/0 first-sight rate). -/
theorem F64.sub_self_div_zero (n : F64) :
    F64.div (F64.sub n n) (.fin 0) = .nan := by
  cases n with
  | fin q => simp [F64.sub, F64.div, ratSub_eq_sub]
  | inf => rfl
  | ninf => rfl
  | nan => rfl

/-! Lemmas about Bound.check. -/

/-- A non-relative bound reads only the current value: the time and the
optional previous sample never affect it, and it cannot panic. -/
theorem check_nonrel (b : Bound) (hb : b.is_relative = false) (v : Value) (t : Time)
    (ov : Option Value) (ot : Option Time) :
    b.check v t ov ot = some (absTrigger b v) := by
  cases b with
  | absLower l => rfl
  | absUpper u => rfl
  | rateLower mi tp => simp [Bound.is_relative] at hb
  | rateUpper ma tp => simp [Bound.is_relative] at hb

/-- A relative bound checked against a previous sample identical to the
current one returns false, provided its time_period fits in i64
microseconds: the increment over elapsed ratio is the 0/0 NaN, whose
comparisons are all false. -/
theorem check_prev_self (b : Bound) (hrel : b.is_relative = true) (htp : tpOk b)
    (v : Value) (t : Time) :
    b.check v t (some v) (some t) = some false := by
  cases b with
  | absLower l => simp [Bound.is_relative] at hrel
  | absUpper u => simp [Bound.is_relative] at hrel
  | rateLower mi tp =>
    obtain ⟨h1, h2⟩ := htp
    have hm1 : numMicroseconds tp = some tp := by simp [numMicroseconds, h1, h2]
    have hm2 : numMicroseconds (t - t) = some 0 := by rw [sub_self]; decide
    cases v with
    | counter n | gauge n =>
      simp only [Bound.check, diffs, numOf, Option.bind_some, hm1, hm2]
      simp [show numMicroseconds 0 = some 0 from by decide,
        F64.sub_self_div_zero, F64.blt_nan_left]
    | histogram h => rfl
    | summary q => rfl
    | untyped n => rfl
  | rateUpper ma tp =>
    obtain ⟨h1, h2⟩ := htp
    have hm1 : numMicroseconds tp = some tp := by simp [numMicroseconds, h1, h2]
    have hm2 : numMicroseconds (t - t) = some 0 := by rw [sub_self]; decide
    cases v with
    | counter n | gauge n =>
      simp only [Bound.check, diffs, numOf, Option.bind_some, hm1, hm2]
      simp [show numMicroseconds 0 = some 0 from by decide,
        F64.sub_self_div_zero, F64.bgt_nan_left]
    | histogram h => rfl
    | summary q => rfl
    | untyped n => rfl

/-! Association list lemmas. -/

theorem lookupAssoc_update_self {α : Type} (m : List (String × α)) (k : String) (v : α) :
    lookupAssoc (updateAssoc m k v) k = (lookupAssoc m k).map fun _ => v := by
  induction m with
  | nil => rfl
  | cons p rest ih =>
    by_cases h : p.1 = k
    · simp [updateAssoc, lookupAssoc, h]
    · simp [updateAssoc, lookupAssoc, h, ih]

theorem lookupAssoc_update_ne {α : Type} (m : List (String × α)) (k k' : String) (v : α)
    (h : k ≠ k') : lookupAssoc (updateAssoc m k v) k' = lookupAssoc m k' := by
  induction m with
  | nil => rfl
  | cons p rest ih =>
    by_cases hp : p.1 = k
    · simp [updateAssoc, lookupAssoc, hp, h, ih]
    · simp [updateAssoc, lookupAssoc, hp, ih]

theorem lookupAssoc_update_isSome {α : Type} (m : List (String × α)) (k k' : String) (v : α) :
    (lookupAssoc (updateAssoc m k v) k').isSome = (lookupAssoc m k').isSome := by
  by_cases h : k = k'
  · subst h
    rw [lookupAssoc_update_self]
    cases lookupAssoc m k <;> rfl
  · rw [lookupAssoc_update_ne m k k' v h]

theorem lookupAssoc_append_right {α : Type} (m : List (String × α)) (k : String) (v : α)
    (k' : String) :
    lookupAssoc (m ++ [(k, v)]) k' =
      match lookupAssoc m k' with
      | some w => some w
      | none => if k = k' then some v else none := by
  induction m with
  | nil => simp [lookupAssoc]
  | cons p rest ih =>
    by_cases h : p.1 = k'
    · simp [lookupAssoc, h]
    · simp [lookupAssoc, h, ih]

/-! Lemmas about the per-sample bound loop and the engine run. -/

theorem checkBounds_nonrel (s : Sample) (bounds : List Bound) (st : List (String × Sample))
    (h : ∀ b ∈ bounds, b.is_relative = false) :
    checkBounds s bounds st = some (bounds.any fun b => absTrigger b s.value, st) := by
  induction bounds with
  | nil => rfl
  | cons b rest ih =>
    have hb := h b (List.mem_cons_self b rest)
    rw [checkBounds]
    simp only [hb, Bool.false_eq_true, if_false]
    rw [check_nonrel b hb]
    cases hab : absTrigger b s.value with
    | true => simp [List.any_cons, hab]
    | false =>
      simp only [List.any_cons, hab, Bool.false_or, if_false, Bool.false_eq_true]
      exact ih fun b' hb' => h b' (List.mem_cons_of_mem b hb')

theorem checkBounds_preserves_keys (s : Sample) (bounds : List Bound)
    (st st' : List (String × Sample)) (r : Bool)
    (h : checkBounds s bounds st = some (r, st')) (k : String)
    (hk : (lookupAssoc st k).isSome = true) : (lookupAssoc st' k).isSome = true := by
  induction bounds generalizing st with
  | nil =>
    rw [checkBounds] at h
    obtain ⟨-, rfl⟩ : r = false ∧ st' = st := by
      simpa [eq_comm, and_comm] using h
    exact hk
  | cons b rest ih =>
    rw [checkBounds] at h
    by_cases hb : b.is_relative = true
    · simp only [hb, if_true] at h
      have hkey : ∀ st1 : List (String × Sample), (lookupAssoc st1 k).isSome = true →
          (lookupAssoc (updateAssoc st1 s.metric s) k).isSome = true := by
        intro st1 h1
        rw [lookupAssoc_update_isSome]
        exact h1
      cases hl : lookupAssoc st s.metric with
      | some e =>
        simp only [hl] at h
        cases hc : b.check s.value s.timestamp (some e.value) (some e.timestamp) with
        | none => simp [hc] at h
        | some res =>
          simp only [hc] at h
          cases res with
          | true =>
            obtain ⟨-, rfl⟩ : r = true ∧ st' = updateAssoc st s.metric s := by
              simpa [eq_comm, and_comm] using h
            exact hkey st hk
          | false =>
            simp only [if_false, Bool.false_eq_true] at h
            exact ih (updateAssoc st s.metric s) h (hkey st hk)
      | none =>
        simp only [hl] at h
        have hk1 : (lookupAssoc (st ++ [(s.metric, s)]) k).isSome = true := by
          rw [lookupAssoc_append_right]
          obtain ⟨w, hw⟩ := Option.isSome_iff_exists.mp hk
          simp [hw]
        cases hc : b.check s.value s.timestamp (some s.value) (some s.timestamp) with
        | none => simp [hc] at h
        | some res =>
          simp only [hc] at h
          cases res with
          | true =>
            obtain ⟨-, rfl⟩ : r = true ∧ st' = updateAssoc (st ++ [(s.metric, s)]) s.metric s := by
              simpa [eq_comm, and_comm] using h
            exact hkey _ hk1
          | false =>
            simp only [if_false, Bool.false_eq_true] at h
            exact ih _ h (hkey _ hk1)
    · have hb' : b.is_relative = false := by simpa using hb
      simp only [hb', Bool.false_eq_true, if_false] at h
      rw [check_nonrel b hb'] at h
      cases hab : absTrigger b s.value with
      | true =>
        simp only [hab, if_true] at h
        obtain ⟨-, rfl⟩ : r = true ∧ st' = st := by
          simpa [eq_comm, and_comm] using h
        exact hk
      | false =>
        simp only [hab, Bool.false_eq_true, if_false] at h
        exact ih st h hk

theorem checkBounds_new_key (s : Sample) (bounds : List Bound)
    (st st' : List (String × Sample)) (r : Bool)
    (h : checkBounds s bounds st = some (r, st')) (k : String)
    (hk : lookupAssoc st k = none) (hk' : (lookupAssoc st' k).isSome = true) :
    k = s.metric ∧ ∃ b ∈ bounds, b.is_relative = true := by
  induction bounds generalizing st with
  | nil =>
    rw [checkBounds] at h
    obtain ⟨-, rfl⟩ : r = false ∧ st' = st := by
      simpa [eq_comm, and_comm] using h
    rw [hk] at hk'
    simp at hk'
  | cons b rest ih =>
    rw [checkBounds] at h
    by_cases hks : k = s.metric
    · by_cases hb : b.is_relative = true
      · exact ⟨hks, b, List.mem_cons_self b rest, hb⟩
      · have hb' : b.is_relative = false := by simpa using hb
        simp only [hb', Bool.false_eq_true, if_false] at h
        rw [check_nonrel b hb'] at h
        cases hab : absTrigger b s.value with
        | true =>
          simp only [hab, if_true] at h
          obtain ⟨-, rfl⟩ : r = true ∧ st' = st := by
            simpa [eq_comm, and_comm] using h
          rw [hk] at hk'
          simp at hk'
        | false =>
          simp only [hab, Bool.false_eq_true, if_false] at h
          obtain ⟨-, b', hmem, hrel⟩ := ih st h hk
          exact ⟨hks, b', List.mem_cons_of_mem b hmem, hrel⟩
    · -- k is not this sample's metric: the step cannot create it
      by_cases hb : b.is_relative = true
      · simp only [hb, if_true] at h
        have hkeep : ∀ st1 : List (String × Sample), lookupAssoc st1 k = none →
            lookupAssoc (updateAssoc st1 s.metric s) k = none := by
          intro st1 h1
          rw [lookupAssoc_update_ne st1 s.metric k s (fun he => hks he.symm), h1]
        cases hl : lookupAssoc st s.metric with
        | some e =>
          simp only [hl] at h
          cases hc : b.check s.value s.timestamp (some e.value) (some e.timestamp) with
          | none => simp [hc] at h
          | some res =>
            simp only [hc] at h
            cases res with
            | true =>
              obtain ⟨-, rfl⟩ : r = true ∧ st' = updateAssoc st s.metric s := by
                simpa [eq_comm, and_comm] using h
              rw [hkeep st hk] at hk'
              simp at hk'
            | false =>
              simp only [if_false, Bool.false_eq_true] at h
              obtain ⟨hks', rest'⟩ := ih (updateAssoc st s.metric s) h (hkeep st hk)
              exact absurd hks' hks
        | none =>
          simp only [hl] at h
          have hk1 : lookupAssoc (st ++ [(s.metric, s)]) k = none := by
            rw [lookupAssoc_append_right, hk, if_neg (fun he => hks he.symm)]
          cases hc : b.check s.value s.timestamp (some s.value) (some s.timestamp) with
          | none => simp [hc] at h
          | some res =>
            simp only [hc] at h
            cases res with
            | true =>
              obtain ⟨-, rfl⟩ : r = true ∧ st' = updateAssoc (st ++ [(s.metric, s)]) s.metric s := by
                simpa [eq_comm, and_comm] using h
              rw [hkeep _ hk1] at hk'
              simp at hk'
            | false =>
              simp only [if_false, Bool.false_eq_true] at h
              obtain ⟨hks', rest'⟩ := ih _ h (hkeep _ hk1)
              exact absurd hks' hks
      · have hb' : b.is_relative = false := by simpa using hb
        simp only [hb', Bool.false_eq_true, if_false] at h
        rw [check_nonrel b hb'] at h
        cases hab : absTrigger b s.value with
        | true =>
          simp only [hab, if_true] at h
          obtain ⟨-, rfl⟩ : r = true ∧ st' = st := by
            simpa [eq_comm, and_comm] using h
          rw [hk] at hk'
          simp at hk'
        | false =>
          simp only [hab, Bool.false_eq_true, if_false] at h
          obtain ⟨hks', rest'⟩ := ih st h hk
          exact absurd hks' hks

theorem checkBounds_self_state (s : Sample) (bounds : List Bound)
    (st : List (String × Sample))
    (hst : lookupAssoc st s.metric = none ∨ lookupAssoc st s.metric = some s)
    (htp : ∀ b ∈ bounds, tpOk b) :
    ∃ st', checkBounds s bounds st =
      some (bounds.any fun b => !b.is_relative && absTrigger b s.value, st') := by
  induction bounds generalizing st with
  | nil => exact ⟨st, rfl⟩
  | cons b rest ih =>
    by_cases hb : b.is_relative = true
    · have hfalse := check_prev_self b hb (htp b (List.mem_cons_self b rest)) s.value s.timestamp
      have hany : ((b :: rest).any fun b => !b.is_relative && absTrigger b s.value) =
          rest.any fun b => !b.is_relative && absTrigger b s.value := by
        simp [List.any_cons, hb]
      rw [hany, checkBounds]
      simp only [hb, if_true]
      rcases hst with hl | hl
      · simp only [hl, hfalse, Bool.false_eq_true, if_false]
        have hinv : lookupAssoc (updateAssoc (st ++ [(s.metric, s)]) s.metric s) s.metric = some s := by
          rw [lookupAssoc_update_self]
          rw [lookupAssoc_append_right, hl, if_pos rfl]
          rfl
        exact ih _ (Or.inr hinv) fun b' hb' => htp b' (List.mem_cons_of_mem b hb')
      · simp only [hl, hfalse, Bool.false_eq_true, if_false]
        have hinv : lookupAssoc (updateAssoc st s.metric s) s.metric = some s := by
          rw [lookupAssoc_update_self, hl]
          rfl
        exact ih _ (Or.inr hinv) fun b' hb' => htp b' (List.mem_cons_of_mem b hb')
    · have hb' : b.is_relative = false := by simpa using hb
      rw [checkBounds]
      simp only [hb', Bool.false_eq_true, if_false]
      rw [check_nonrel b hb']
      cases hab : absTrigger b s.value with
      | true =>
        refine ⟨st, ?_⟩
        simp [List.any_cons, hab, hb']
      | false =>
        simp only [if_false, Bool.false_eq_true]
        have hany : ((b :: rest).any fun b => !b.is_relative && absTrigger b s.value) =
            rest.any fun b => !b.is_relative && absTrigger b s.value := by
          simp [List.any_cons, hb', hab]
        rw [hany]
        exact ih st hst fun b' hb'' => htp b' (List.mem_cons_of_mem b hb'')

theorem go_eq_flags (fs : List (String × List Bound)) (samples : List Sample)
    (st : List (String × Sample)) :
    checkFiltersGo fs samples st =
      Option.map (fun p => ((p.1.filter fun q => q.2).map fun q => q.1, p.2))
        (checkFiltersFlags fs samples st) := by
  induction samples generalizing st with
  | nil => rfl
  | cons s rest ih =>
    cases hl : lookupAssoc fs s.metric with
    | none =>
      simp only [checkFiltersGo, checkFiltersFlags, hl]
      rw [ih st]
      cases checkFiltersFlags fs rest st with
      | none => rfl
      | some p => cases p with | mk ps st2 => simp [List.filter]
    | some bounds =>
      simp only [checkFiltersGo, checkFiltersFlags, hl]
      cases checkBounds s bounds st with
      | none => rfl
      | some p =>
        cases p with
        | mk trig st1 =>
          dsimp only
          rw [ih st1]
          cases checkFiltersFlags fs rest st1 with
          | none => rfl
          | some p2 =>
            cases p2 with
            | mk ps st2 =>
              cases trig <;> simp [List.filter]

theorem flags_fst (fs : List (String × List Bound)) (samples : List Sample)
    (st : List (String × Sample)) (flags : List (Sample × Bool))
    (st' : List (String × Sample))
    (h : checkFiltersFlags fs samples st = some (flags, st')) :
    flags.map (fun p => p.1) = samples := by
  induction samples generalizing st flags st' with
  | nil =>
    rw [checkFiltersFlags] at h
    obtain ⟨rfl, -⟩ : flags = [] ∧ st' = st := by simpa [eq_comm, and_comm] using h
    rfl
  | cons s rest ih =>
    rw [checkFiltersFlags] at h
    cases hl : lookupAssoc fs s.metric with
    | none =>
      simp only [hl] at h
      cases hrec : checkFiltersFlags fs rest st with
      | none =>
        simp only [hrec] at h
        exact Option.noConfusion h
      | some p =>
        cases p with
        | mk ps st2 =>
          simp only [hrec] at h
          obtain ⟨rfl, rfl⟩ : flags = (s, false) :: ps ∧ st' = st2 := by
            simpa [eq_comm, and_comm] using h
          simpa using ih _ _ _ hrec
    | some bounds =>
      simp only [hl] at h
      cases hc : checkBounds s bounds st with
      | none =>
        simp only [hc] at h
        exact Option.noConfusion h
      | some p =>
        cases p with
        | mk trig st1 =>
          simp only [hc] at h
          cases hrec : checkFiltersFlags fs rest st1 with
          | none =>
            simp only [hrec] at h
            exact Option.noConfusion h
          | some p2 =>
            cases p2 with
            | mk ps st2 =>
              simp only [hrec] at h
              obtain ⟨rfl, rfl⟩ : flags = (s, trig) :: ps ∧ st' = st2 := by
                simpa [eq_comm, and_comm] using h
              simpa using ih _ _ _ hrec

theorem flags_nofilter (fs : List (String × List Bound)) (samples : List Sample)
    (st : List (String × Sample)) (flags : List (Sample × Bool))
    (st' : List (String × Sample))
    (h : checkFiltersFlags fs samples st = some (flags, st')) :
    ∀ p ∈ flags, lookupAssoc fs p.1.metric = none → p.2 = false := by
  induction samples generalizing st flags st' with
  | nil =>
    rw [checkFiltersFlags] at h
    obtain ⟨rfl, -⟩ : flags = [] ∧ st' = st := by simpa [eq_comm, and_comm] using h
    intro p hp
    simp at hp
  | cons s rest ih =>
    rw [checkFiltersFlags] at h
    cases hl : lookupAssoc fs s.metric with
    | none =>
      simp only [hl] at h
      cases hrec : checkFiltersFlags fs rest st with
      | none =>
        simp only [hrec] at h
        exact Option.noConfusion h
      | some p =>
        cases p with
        | mk ps st2 =>
          simp only [hrec] at h
          obtain ⟨rfl, rfl⟩ : flags = (s, false) :: ps ∧ st' = st2 := by
            simpa [eq_comm, and_comm] using h
          intro q hq hql
          rcases List.mem_cons.mp hq with rfl | hq'
          · rfl
          · exact ih _ _ _ hrec q hq' hql
    | some bounds =>
      simp only [hl] at h
      cases hc : checkBounds s bounds st with
      | none =>
        simp only [hc] at h
        exact Option.noConfusion h
      | some p =>
        cases p with
        | mk trig st1 =>
          simp only [hc] at h
          cases hrec : checkFiltersFlags fs rest st1 with
          | none =>
            simp only [hrec] at h
            exact Option.noConfusion h
          | some p2 =>
            cases p2 with
            | mk ps st2 =>
              simp only [hrec] at h
              obtain ⟨rfl, rfl⟩ : flags = (s, trig) :: ps ∧ st' = st2 := by
                simpa [eq_comm, and_comm] using h
              intro q hq hql
              rcases List.mem_cons.mp hq with rfl | hq'
              · rw [hl] at hql
                exact Option.noConfusion hql
              · exact ih _ _ _ hrec q hq' hql

theorem go_nonrel (fs : List (String × List Bound)) (samples : List Sample)
    (st : List (String × Sample))
    (h : ∀ s ∈ samples, ∀ bounds, lookupAssoc fs s.metric = some bounds →
      ∀ b ∈ bounds, b.is_relative = false) :
    checkFiltersGo fs samples st =
      some (samples.filter fun s =>
        match lookupAssoc fs s.metric with
        | some bounds => bounds.any fun b => absTrigger b s.value
        | none => false, st) := by
  induction samples with
  | nil => rfl
  | cons s rest ih =>
    have htail : ∀ s' ∈ rest, ∀ bounds, lookupAssoc fs s'.metric = some bounds →
        ∀ b ∈ bounds, b.is_relative = false :=
      fun s' hs' => h s' (List.mem_cons_of_mem s hs')
    cases hl : lookupAssoc fs s.metric with
    | none =>
      simp only [checkFiltersGo, hl]
      rw [ih htail]
      simp [List.filter_cons, hl]
    | some bounds =>
      simp only [checkFiltersGo, hl]
      rw [checkBounds_nonrel s bounds st (h s (List.mem_cons_self s rest) bounds hl)]
      dsimp only
      rw [ih htail]
      simp [List.filter_cons, hl]

theorem go_preserves_keys (fs : List (String × List Bound)) (samples : List Sample)
    (st st' : List (String × Sample)) (out : List Sample)
    (h : checkFiltersGo fs samples st = some (out, st')) (k : String)
    (hk : (lookupAssoc st k).isSome = true) : (lookupAssoc st' k).isSome = true := by
  induction samples generalizing st out st' with
  | nil =>
    rw [checkFiltersGo] at h
    obtain ⟨-, rfl⟩ : out = [] ∧ st' = st := by simpa [eq_comm, and_comm] using h
    exact hk
  | cons s rest ih =>
    rw [checkFiltersGo] at h
    cases hl : lookupAssoc fs s.metric with
    | none =>
      simp only [hl] at h
      exact ih _ _ _ h hk
    | some bounds =>
      simp only [hl] at h
      cases hc : checkBounds s bounds st with
      | none =>
        simp only [hc] at h
        exact Option.noConfusion h
      | some p =>
        cases p with
        | mk trig st1 =>
          simp only [hc] at h
          cases hrec : checkFiltersGo fs rest st1 with
          | none =>
            simp only [hrec] at h
            exact Option.noConfusion h
          | some p2 =>
            cases p2 with
            | mk out2 st2 =>
              simp only [hrec] at h
              obtain ⟨-, rfl⟩ : out = (if trig = true then s :: out2 else out2) ∧ st' = st2 := by
                simpa [eq_comm, and_comm] using h
              exact ih _ _ _ hrec (checkBounds_preserves_keys s bounds st st1 trig hc k hk)

theorem go_new_key (fs : List (String × List Bound)) (samples : List Sample)
    (st st' : List (String × Sample)) (out : List Sample)
    (h : checkFiltersGo fs samples st = some (out, st')) (k : String)
    (hk : lookupAssoc st k = none) (hk' : (lookupAssoc st' k).isSome = true) :
    ∃ s ∈ samples, s.metric = k ∧ ∃ bounds, lookupAssoc fs s.metric = some bounds ∧
      ∃ b ∈ bounds, b.is_relative = true := by
  induction samples generalizing st out st' with
  | nil =>
    rw [checkFiltersGo] at h
    obtain ⟨-, rfl⟩ : out = [] ∧ st' = st := by simpa [eq_comm, and_comm] using h
    rw [hk] at hk'
    exact Bool.noConfusion hk'
  | cons s rest ih =>
    rw [checkFiltersGo] at h
    cases hl : lookupAssoc fs s.metric with
    | none =>
      simp only [hl] at h
      obtain ⟨s', hmem, hrest⟩ := ih _ _ _ h hk hk'
      exact ⟨s', List.mem_cons_of_mem s hmem, hrest⟩
    | some bounds =>
      simp only [hl] at h
      cases hc : checkBounds s bounds st with
      | none =>
        simp only [hc] at h
        exact Option.noConfusion h
      | some p =>
        cases p with
        | mk trig st1 =>
          simp only [hc] at h
          cases hrec : checkFiltersGo fs rest st1 with
          | none =>
            simp only [hrec] at h
            exact Option.noConfusion h
          | some p2 =>
            cases p2 with
            | mk out2 st2 =>
              simp only [hrec] at h
              obtain ⟨-, rfl⟩ : out = (if trig = true then s :: out2 else out2) ∧ st' = st2 := by
                simpa [eq_comm, and_comm] using h
              by_cases hmid : (lookupAssoc st1 k).isSome = true
              · obtain ⟨hks, b, hbmem, hbrel⟩ :=
                  checkBounds_new_key s bounds st st1 trig hc k hk hmid
                exact ⟨s, List.mem_cons_self s rest, hks.symm, bounds, hl, b, hbmem, hbrel⟩
              · have hnone : lookupAssoc st1 k = none := by
                  cases hx : lookupAssoc st1 k with
                  | none => rfl
                  | some w => rw [hx] at hmid; simp at hmid
                obtain ⟨s', hmem, hrest⟩ := ih _ _ _ hrec hnone hk'
                exact ⟨s', List.mem_cons_of_mem s hmem, hrest⟩

theorem label_match_iff (a : Alert) (kv : String × String) :
    (match lookupAssoc a.labels kv.1 with
     | some v => decide (kv.2 = v)
     | none => false) = true ↔ lookupAssoc a.labels kv.1 = some kv.2 := by
  cases h : lookupAssoc a.labels kv.1 with
  | none => simp
  | some v => simp [eq_comm]

theorem alert_check_iff (a : Alert) (f : AlertFilter) :
    a.check f = true ↔
      (lookupAssoc a.labels "alertname" = some f.name ∧ a.state = "firing" ∧
        (f.labels = [] ∨ ∀ kv ∈ f.labels, lookupAssoc a.labels kv.1 = some kv.2)) := by
  unfold Alert.check
  cases hl : lookupAssoc a.labels "alertname" with
  | none => simp
  | some nm =>
    dsimp only
    by_cases hnm : nm = f.name
    · subst hnm
      rw [if_pos rfl]
      by_cases hemp : f.labels.isEmpty = true
      · have hnil : f.labels = [] := List.isEmpty_iff.mp hemp
        simp [hemp, hnil]
      · have hne : f.labels ≠ [] := fun hn => hemp (by simp [hn])
        have hemp' : f.labels.isEmpty = false := by
          cases hx : f.labels.isEmpty with
          | false => rfl
          | true => exact absurd hx hemp
        simp only [hemp', Bool.not_false, if_true, Bool.and_eq_true, decide_eq_true_eq,
          List.all_eq_true]
        constructor
        · rintro ⟨hst, hall⟩
          exact ⟨by simp, hst, Or.inr fun kv hkv => (label_match_iff a kv).mp (hall kv hkv)⟩
        · rintro ⟨-, hst, hor⟩
          rcases hor with hnil | hall
          · exact absurd hnil hne
          · exact ⟨hst, fun kv hkv => (label_match_iff a kv).mpr (hall kv hkv)⟩
    · simp only [if_neg hnm]
      constructor
      · intro hfalse
        exact Bool.noConfusion hfalse
      · rintro ⟨hname, -⟩
        injection hname with hname'
        exact absurd hname' hnm



/-- C6: AbsLower(limit).check is false for every Counter; for Gauge(v) it is
exactly v < limit (for finite values, the rational comparison); for a
Histogram it is true iff some bucket has upper_bound < limit and
cumulative_count > 0; it is false for Summary and every other value kind;
and the previous value and previous time arguments never affect it. -/
theorem C6_absLower_semantics (limit : F64) (t : Time) (ov : Option Value)
    (ot : Option Time) :
    (∀ n, Bound.check (.absLower limit) (.counter n) t ov ot = some false) ∧
    (∀ n, Bound.check (.absLower limit) (.gauge n) t ov ot = some (F64.blt n limit)) ∧
    (∀ q l, Bound.check (.absLower (.fin l)) (.gauge (.fin q)) t ov ot =
      some (decide (q < l))) ∧
    (∀ h, Bound.check (.absLower limit) (.histogram h) t ov ot = some true ↔
      ∃ hc ∈ h, F64.blt hc.less_than limit = true ∧ F64.bgt hc.count (.fin 0) = true) ∧
    (∀ qs, Bound.check (.absLower limit) (.summary qs) t ov ot = some false) ∧
    (∀ n, Bound.check (.absLower limit) (.untyped n) t ov ot = some false) ∧
    (∀ v ov' ot', Bound.check (.absLower limit) v t ov ot =
      Bound.check (.absLower limit) v t ov' ot') := by
  refine ⟨fun n => rfl, fun n => rfl, fun q l => rfl, fun h => ?_, fun qs => rfl,
    fun n => rfl, fun v ov' ot' => rfl⟩
  simp [Bound.check, List.any_eq_true]

/-- C7: AbsUpper(limit).check compares Counter and Gauge scalars alike:
true iff value > limit; for a Histogram it is true iff some bucket has
upper_bound > limit and cumulative_count > 0, so buckets without observed
mass never trigger; it is false for Summary and every other value kind; and
the previous value and previous time arguments never affect it. -/
theorem C7_absUpper_semantics (limit : F64) (t : Time) (ov : Option Value)
    (ot : Option Time) :
    (∀ n, Bound.check (.absUpper limit) (.counter n) t ov ot = some (F64.bgt n limit)) ∧
    (∀ n, Bound.check (.absUpper limit) (.gauge n) t ov ot = some (F64.bgt n limit)) ∧
    (∀ q l, Bound.check (.absUpper (.fin l)) (.counter (.fin q)) t ov ot =
      some (decide (l < q))) ∧
    (∀ q l, Bound.check (.absUpper (.fin l)) (.gauge (.fin q)) t ov ot =
      some (decide (l < q))) ∧
    (∀ h, Bound.check (.absUpper limit) (.histogram h) t ov ot = some true ↔
      ∃ hc ∈ h, F64.bgt hc.less_than limit = true ∧ F64.bgt hc.count (.fin 0) = true) ∧
    (∀ h, (∀ hc ∈ h, F64.bgt hc.count (.fin 0) = false) →
      Bound.check (.absUpper limit) (.histogram h) t ov ot = some false) ∧
    (∀ qs, Bound.check (.absUpper limit) (.summary qs) t ov ot = some false) ∧
    (∀ n, Bound.check (.absUpper limit) (.untyped n) t ov ot = some false) ∧
    (∀ v ov' ot', Bound.check (.absUpper limit) v t ov ot =
      Bound.check (.absUpper limit) v t ov' ot') := by
  refine ⟨fun n => rfl, fun n => rfl, fun q l => rfl, fun q l => rfl, fun h => ?_,
    fun h hz => ?_, fun qs => rfl, fun n => rfl, fun v ov' ot' => rfl⟩
  · simp [Bound.check, List.any_eq_true]
  · simp only [Bound.check, Option.some.injEq]
    rw [List.any_eq_false]
    intro hc hhc
    simp [hz hc hhc]

/-- C7 witness: the zero-count clause applied at the spec's example bucket
(upper_bound 1/2, count 0) with limit 2/5. -/
theorem C7_witness :
    Bound.check (.absUpper (.fin (Rat.divInt 2 5)))
      (.histogram [⟨.fin (Rat.divInt 1 2), .fin 0⟩]) 0 none none = some false :=
  (C7_absUpper_semantics (.fin (Rat.divInt 2 5)) 0 none none).2.2.2.2.2.1
    [⟨.fin (Rat.divInt 1 2), .fin 0⟩] (by decide)

/-- C4: from the decoded alerts response onward, AlertChecker::check keeps
exactly the alerts, in response order, matched by at least one filter,
where a match requires the alertname label equal to the filter name, the
firing state, and every filter label present with an equal value (no
constraint when the filter label set is empty); an empty result is a valid
non-error outcome. -/
theorem C4_alert_matching (c : AlertChecker) (resp : AlertsResponse) (out : List Alert)
    (h : c.check resp = Except.ok out) :
    out = resp.data.alerts.filter (fun a => c.alert_set.any fun f => a.check f) ∧
    out.Sublist resp.data.alerts ∧
    ∀ a, a ∈ out ↔ a ∈ resp.data.alerts ∧ ∃ f ∈ c.alert_set,
      lookupAssoc a.labels "alertname" = some f.name ∧ a.state = "firing" ∧
      (f.labels = [] ∨ ∀ kv ∈ f.labels, lookupAssoc a.labels kv.1 = some kv.2) := by
  unfold AlertChecker.check at h
  by_cases hs : resp.status = "success"
  · rw [if_neg (fun hne => hne hs)] at h
    obtain rfl : resp.data.alerts.filter (fun a => c.alert_set.any fun f => a.check f) = out :=
      by simpa using h
    refine ⟨rfl, List.filter_sublist _, fun a => ?_⟩
    rw [List.mem_filter, List.any_eq_true]
    constructor
    · rintro ⟨hmem, f, hf, hchk⟩
      exact ⟨hmem, f, hf, (alert_check_iff a f).mp hchk⟩
    · rintro ⟨hmem, f, hf, hprops⟩
      exact ⟨hmem, f, hf, (alert_check_iff a f).mpr hprops⟩
  · rw [if_pos hs] at h
    exact Except.noConfusion h

/-- C4 witness: one firing alert matched by a one-filter checker. -/
theorem C4_witness :
    (AlertChecker.check ⟨[⟨"Foo", [("job", "x")]⟩]⟩
        ⟨"success", ⟨[⟨[("alertname", "Foo"), ("job", "x")], [], "firing", "", ""⟩]⟩⟩ =
      Except.ok [⟨[("alertname", "Foo"), ("job", "x")], [], "firing", "", ""⟩]) ∧
    ([⟨[("alertname", "Foo"), ("job", "x")], [], "firing", "", ""⟩] : List Alert).Sublist
      [⟨[("alertname", "Foo"), ("job", "x")], [], "firing", "", ""⟩] := by
  refine ⟨by rfl, ?_⟩
  exact (C4_alert_matching ⟨[⟨"Foo", [("job", "x")]⟩]⟩
    ⟨"success", ⟨[⟨[("alertname", "Foo"), ("job", "x")], [], "firing", "", ""⟩]⟩⟩
    [⟨[("alertname", "Foo"), ("job", "x")], [], "firing", "", ""⟩] (by rfl)).2.1

/-- C5: a decoded alerts response whose status is not success makes the
whole call fail with an error, whatever the alerts array holds, and a
filtering result is only produced when the status is success. -/
theorem C5_status_gate :
    (∀ (c : AlertChecker) (resp : AlertsResponse), resp.status ≠ "success" →
      c.check resp = Except.error "AlertChecker: response indicates error") ∧
    (∀ (c : AlertChecker) (resp : AlertsResponse) (out : List Alert),
      c.check resp = Except.ok out → resp.status = "success") := by
  constructor
  · intro c resp hs
    unfold AlertChecker.check
    rw [if_pos hs]
  · intro c resp out h
    by_cases hs : resp.status = "success"
    · exact hs
    · unfold AlertChecker.check at h
      rw [if_pos hs] at h
      exact Except.noConfusion h

/-- C5 witness: a failing status with a nonempty alerts array still errors. -/
theorem C5_witness :
    AlertChecker.check ⟨[⟨"Foo", []⟩]⟩
        ⟨"error", ⟨[⟨[("alertname", "Foo")], [], "firing", "", ""⟩]⟩⟩ =
      Except.error "AlertChecker: response indicates error" :=
  C5_status_gate.1 ⟨[⟨"Foo", []⟩]⟩
    ⟨"error", ⟨[⟨[("alertname", "Foo")], [], "firing", "", ""⟩]⟩⟩ (by decide)

theorem diffs_some_inv (v : Value) (t : Time) (ov : Option Value) (ot : Option Time)
    (inc : F64) (dur : Duration) (h : diffs v t ov ot = some (inc, dur)) :
    ∃ t0, ot = some t0 ∧ dur = t - t0 := by
  unfold diffs at h
  cases hn : numOf v with
  | none =>
    simp only [hn] at h
    exact Option.noConfusion h
  | some num =>
    simp only [hn] at h
    cases hon : ov.bind numOf with
    | none =>
      simp only [hon] at h
      exact Option.noConfusion h
    | some old =>
      simp only [hon] at h
      cases ot with
      | none =>
        simp only at h
        exact Option.noConfusion h
      | some t0 =>
        refine ⟨t0, rfl, ?_⟩
        obtain ⟨-, h2⟩ : inc = F64.sub num old ∧ dur = t - t0 := by
          simpa [eq_comm, and_comm] using h
        exact h2

/-- C2 (amended): RateLower and RateUpper return false when either side is
not a Counter/Gauge or no previous value or time is supplied; otherwise,
provided the time_period and the elapsed duration both fit in i64
microseconds, they return exactly the comparison of the observed rate
increment/elapsed against the threshold rate limit/time_period (both in
value per microsecond); in particular the spec's 60-second Gauge examples
hold for every start time. -/
theorem C2_rate_semantics :
    (∀ (mi ma : F64) (tp : Duration) (v : Value) (t : Time) (ov : Option Value)
        (ot : Option Time),
      numOf v = none ∨ ov.bind numOf = none ∨ ot = none →
      Bound.check (.rateLower mi tp) v t ov ot = some false ∧
      Bound.check (.rateUpper ma tp) v t ov ot = some false) ∧
    (∀ (mi ma : F64) (tp : Duration) (v ov : Value) (n oldn : F64) (t t0 : Time),
      numOf v = some n → numOf ov = some oldn →
      i64Min ≤ tp → tp ≤ i64Max → i64Min ≤ t - t0 → t - t0 ≤ i64Max →
      Bound.check (.rateLower mi tp) v t (some ov) (some t0) =
        some (F64.blt (F64.div (F64.sub n oldn) (.fin ((t - t0 : ℤ) : ℚ)))
          (F64.div mi (.fin (tp : ℚ)))) ∧
      Bound.check (.rateUpper ma tp) v t (some ov) (some t0) =
        some (F64.bgt (F64.div (F64.sub n oldn) (.fin ((t - t0 : ℤ) : ℚ)))
          (F64.div ma (.fin (tp : ℚ))))) ∧
    (∀ t0 : Time,
      Bound.check (.rateUpper (.fin 100) 60000000) (.gauge (.fin 200)) (t0 + 60000000)
        (some (.gauge (.fin 0))) (some t0) = some true ∧
      Bound.check (.rateUpper (.fin 1000) 60000000) (.gauge (.fin 200)) (t0 + 60000000)
        (some (.gauge (.fin 0))) (some t0) = some false) := by
  refine ⟨fun mi ma tp v t ov ot hmiss => ?_, fun mi ma tp v ov n oldn t t0 hv hov
    h1 h2 h3 h4 => ?_, fun t0 => ?_⟩
  · have hd : diffs v t ov ot = none := by
      unfold diffs
      rcases hmiss with hm | hm | hm
      · simp [hm]
      · cases hn : numOf v with
        | none => rfl
        | some num => simp [hm]
      · cases hn : numOf v with
        | none => rfl
        | some num =>
          cases hon : ov.bind numOf with
          | none => rfl
          | some old => simp [hm]
    constructor <;> simp [Bound.check, hd]
  · have hd : diffs v t (some ov) (some t0) = some (F64.sub n oldn, t - t0) := by
      unfold diffs
      simp [hv, hov]
    have hm1 : numMicroseconds tp = some tp := by simp [numMicroseconds, h1, h2]
    have hm2 : numMicroseconds (t - t0) = some (t - t0) := by
      simp [numMicroseconds, h3, h4]
    constructor <;> simp [Bound.check, hd, hm1, hm2]
  · constructor <;>
    · simp only [Bound.check, diffs, numOf, Option.bind_some]
      rw [show t0 + 60000000 - t0 = (60000000 : ℤ) from add_sub_cancel_left t0 60000000]
      decide

/-- C2 counterexample: with a time_period of 2^63 microseconds (a
constructible chrono Duration of about 9.2e15 milliseconds), the observed
rate 200/60000000 per microsecond exceeds the threshold rate 100/2^63, so
the claim prescribes a true trigger, but Bound::check panics (the unwrap of
Duration::num_microseconds, modelled as none) instead of returning it. -/
theorem C2_counterexample :
    Bound.check (.rateUpper (.fin 100) 9223372036854775808) (.gauge (.fin 200)) 60000000
      (some (.gauge (.fin 0))) (some 0) = none ∧
    F64.bgt (F64.div (F64.sub (.fin 200) (.fin 0)) (.fin ((60000000 : ℤ) : ℚ)))
      (F64.div (.fin 100) (.fin ((9223372036854775808 : ℤ) : ℚ))) = true := by
  constructor <;> decide

/-- C2 witness: the amended equations at a concrete in-range input. -/
theorem C2_witness :
    Bound.check (.rateUpper (.fin 100) 60000000) (.gauge (.fin 200)) 60000007
      (some (.gauge (.fin 0))) (some 7) = some true :=
  ((C2_rate_semantics.2.2 7).1)

/-- C3 (amended): Bound::check is a pure function returning a boolean and
never panics, provided every duration it unwraps fits in i64 microseconds:
the time_period of a rate bound and the elapsed time between the two
timestamps.  Without that proviso the claim fails, see the
counterexample. -/
theorem C3_check_total (b : Bound) (v : Value) (t : Time) (ov : Option Value)
    (ot : Option Time) (htp : tpOk b)
    (hel : ∀ t0, ot = some t0 → i64Min ≤ t - t0 ∧ t - t0 ≤ i64Max) :
    ∃ r, b.check v t ov ot = some r := by
  cases b with
  | absLower l => exact ⟨_, rfl⟩
  | absUpper u => exact ⟨_, rfl⟩
  | rateLower mi tp =>
    cases hd : diffs v t ov ot with
    | none => exact ⟨false, by simp [Bound.check, hd]⟩
    | some p =>
      cases p with
      | mk inc dur =>
        obtain ⟨t0, rfl, rfl⟩ := diffs_some_inv v t ov ot inc dur hd
        obtain ⟨ha, hb⟩ := htp
        obtain ⟨hc, hd'⟩ := hel t0 rfl
        have hm1 : numMicroseconds tp = some tp := by simp [numMicroseconds, ha, hb]
        have hm2 : numMicroseconds (t - t0) = some (t - t0) := by
          simp [numMicroseconds, hc, hd']
        exact ⟨F64.blt (F64.div inc (.fin ((t - t0 : ℤ) : ℚ))) (F64.div mi (.fin (tp : ℚ))),
          by simp [Bound.check, hd, hm1, hm2]⟩
  | rateUpper ma tp =>
    cases hd : diffs v t ov ot with
    | none => exact ⟨false, by simp [Bound.check, hd]⟩
    | some p =>
      cases p with
      | mk inc dur =>
        obtain ⟨t0, rfl, rfl⟩ := diffs_some_inv v t ov ot inc dur hd
        obtain ⟨ha, hb⟩ := htp
        obtain ⟨hc, hd'⟩ := hel t0 rfl
        have hm1 : numMicroseconds tp = some tp := by simp [numMicroseconds, ha, hb]
        have hm2 : numMicroseconds (t - t0) = some (t - t0) := by
          simp [numMicroseconds, hc, hd']
        exact ⟨F64.bgt (F64.div inc (.fin ((t - t0 : ℤ) : ℚ))) (F64.div ma (.fin (tp : ℚ))),
          by simp [Bound.check, hd, hm1, hm2]⟩

/-- C3 counterexample: a RateLower bound whose time_period is 2^63
microseconds (a constructible chrono Duration) makes Bound::check panic on
the unwrap of Duration::num_microseconds (modelled as none), so check does
not return a boolean for every chrono Duration. -/
theorem C3_counterexample :
    Bound.check (.rateLower (.fin 1) 9223372036854775808) (.counter (.fin 5)) 0
      (some (.counter (.fin 5))) (some 0) = none := by
  decide

/-- C3 witness: the amended totality applied at a concrete in-range
input. -/
theorem C3_witness :
    ∃ r, Bound.check (.rateLower (.fin 1) 1000) (.counter (.fin 5)) 10
      (some (.counter (.fin 2))) (some 3) = some r :=
  C3_check_total (.rateLower (.fin 1) 1000) (.counter (.fin 5)) 10
    (some (.counter (.fin 2))) (some 3) (by constructor <;> decide)
    (fun t0 ht => by injection ht with ht'; subst ht'; constructor <;> decide)

/-- C9 (amended): provided every relative bound's time_period fits in i64
microseconds, a relative bound checked against a stored previous sample
equal to the current sample does not trigger (increment 0 over elapsed 0 is
the 0/0 NaN, whose comparisons are false); and whenever the engine state
already stores the current sample for its metric, or stores nothing yet
(first sight, where the current sample is inserted and immediately used as
the previous sample), the whole bound loop returns exactly the OR of the
non-relative bounds: every relative bound contributes false, because after
the first relative bound the entry has been overwritten with the current
sample before the next bound runs. -/
theorem C9_self_comparison_false :
    (∀ (b : Bound) (s : Sample), b.is_relative = true → tpOk b →
      b.check s.value s.timestamp (some s.value) (some s.timestamp) = some false) ∧
    (∀ (s : Sample) (bounds : List Bound) (st : List (String × Sample)),
      lookupAssoc st s.metric = none ∨ lookupAssoc st s.metric = some s →
      (∀ b ∈ bounds, tpOk b) →
      ∃ st', checkBounds s bounds st =
        some (bounds.any fun b => !b.is_relative && absTrigger b s.value, st')) :=
  ⟨fun b s hrel htp => check_prev_self b hrel htp s.value s.timestamp,
   fun s bounds st hst htp => checkBounds_self_state s bounds st hst htp⟩

/-- C9 counterexample: a relative bound whose time_period is 2^63 + 2
microseconds (a constructible chrono Duration), checked with the stored
previous sample equal to the current one, panics on the unwrap of
Duration::num_microseconds (modelled as none) instead of returning
false. -/
theorem C9_counterexample :
    Bound.check (.rateUpper (.fin 1) 9223372036854775810) (.gauge (.fin 5)) 42
      (some (.gauge (.fin 5))) (some 42) = none := by
  decide

/-- C9 witness: a relative bound with an in-range period compared against
an identical previous sample returns false, and the bound loop on first
sight of the metric triggers nothing. -/
theorem C9_witness :
    (Bound.check (.rateLower (.fin 7) 5000000) (.gauge (.fin 3)) 99
      (some (.gauge (.fin 3))) (some 99) = some false) ∧
    (∃ st', checkBounds ⟨"m", .gauge (.fin 3), [], 99⟩ [.rateLower (.fin 7) 5000000] [] =
      some (false, st')) := by
  constructor
  · exact C9_self_comparison_false.1 (.rateLower (.fin 7) 5000000)
      ⟨"m", .gauge (.fin 3), [], 99⟩ rfl ⟨by decide, by decide⟩
  · obtain ⟨st', hst'⟩ := C9_self_comparison_false.2 ⟨"m", .gauge (.fin 3), [], 99⟩
      [.rateLower (.fin 7) 5000000] [] (Or.inl rfl)
      (fun b hb => by
        rcases List.mem_singleton.mp hb with rfl
        exact ⟨by decide, by decide⟩)
    exact ⟨st', by simpa [absTrigger] using hst'⟩

/-- C1: whenever evaluation returns, the result is the order-preserving
filtration of the scrape by per-sample trigger flags: every input sample
gets exactly one flag, in order; the output keeps exactly the flagged
samples; a sample whose metric has no entry in the filter set is always
flagged false and never appears; a sample with an entry is flagged by the
short-circuit OR of its bounds (checkFiltersFlags runs checkBounds, the
bounds.iter().any loop). -/
theorem C1_evaluate_filters (eh : ElementHealth) (samples out : List Sample)
    (eh' : ElementHealth) (h : eh.check_filters samples = some (out, eh')) :
    out.Sublist samples ∧
    (∀ s ∈ out, (lookupAssoc eh.filter_set s.metric).isSome = true) ∧
    ∃ flags, checkFiltersFlags eh.filter_set samples eh.relative_state =
        some (flags, eh'.relative_state) ∧
      flags.map (fun p => p.1) = samples ∧
      out = ((flags.filter fun p => p.2).map fun p => p.1) ∧
      ∀ p ∈ flags, lookupAssoc eh.filter_set p.1.metric = none → p.2 = false := by
  unfold ElementHealth.check_filters at h
  cases hg : checkFiltersGo eh.filter_set samples eh.relative_state with
  | none =>
    rw [hg] at h
    exact Option.noConfusion h
  | some p =>
    cases p with
    | mk out0 st0 =>
      rw [hg] at h
      obtain ⟨rfl, rfl⟩ : out = out0 ∧ eh' = { eh with relative_state := st0 } := by
        simpa [and_comm] using h.symm
      rw [go_eq_flags] at hg
      cases hf : checkFiltersFlags eh.filter_set samples eh.relative_state with
      | none =>
        rw [hf] at hg
        exact Option.noConfusion hg
      | some pf =>
        cases pf with
        | mk flags stf =>
          rw [hf] at hg
          obtain ⟨rfl, rfl⟩ : out = (flags.filter fun p => p.2).map (fun p => p.1) ∧
              st0 = stf := by
            simpa [eq_comm, and_comm] using hg
          have hfst := flags_fst eh.filter_set samples eh.relative_state flags st0 hf
          have hnof := flags_nofilter eh.filter_set samples eh.relative_state flags st0 hf
          refine ⟨?_, ?_, flags, by simp [hf], hfst, rfl, hnof⟩
          · have hsub : ((flags.filter fun p => p.2).map fun p => p.1).Sublist
                (flags.map fun p => p.1) := (List.filter_sublist flags).map _
            rwa [hfst] at hsub
          · intro s hs
            obtain ⟨q, hq, rfl⟩ := List.mem_map.mp hs
            obtain ⟨hqf, hq2⟩ := List.mem_filter.mp hq
            rw [Option.isSome_iff_ne_none]
            intro hnone
            rw [hnof q hqf hnone] at hq2
            exact Bool.noConfusion hq2

/-- C1 witness: a two-sample scrape against an engine with one absolute
filter keeps exactly the triggering sample, in order. -/
theorem C1_witness :
    ([(⟨"m", .gauge (.fin 2), [], 0⟩ : Sample)].Sublist
      [⟨"m", .gauge (.fin 2), [], 0⟩, ⟨"x", .gauge (.fin 5), [], 0⟩]) ∧
    (lookupAssoc ([("m", [Bound.absUpper (.fin 1)])] : List (String × List Bound))
      "m").isSome = true := by
  have hres := C1_evaluate_filters ⟨[("m", [.absUpper (.fin 1)])], []⟩
    [⟨"m", .gauge (.fin 2), [], 0⟩, ⟨"x", .gauge (.fin 5), [], 0⟩]
    [⟨"m", .gauge (.fin 2), [], 0⟩] ⟨[("m", [.absUpper (.fin 1)])], []⟩ (by decide)
  exact ⟨hres.1, hres.2.1 ⟨"m", .gauge (.fin 2), [], 0⟩ (List.mem_singleton.mpr rfl)⟩

/-- C8: when every bound configured for the metrics of a scrape is
non-relative, evaluation is the pure, state-independent filtration of the
scrape by the absolute trigger of some configured bound: the engine state
after the call is exactly the engine before it, and running the same call
again from the resulting engine returns the same output and engine. -/
theorem C8_nonrelative_idempotent (eh : ElementHealth) (samples : List Sample)
    (h : ∀ s ∈ samples, ∀ bounds, lookupAssoc eh.filter_set s.metric = some bounds →
      ∀ b ∈ bounds, b.is_relative = false) :
    eh.check_filters samples =
      some (samples.filter fun s =>
        match lookupAssoc eh.filter_set s.metric with
        | some bounds => bounds.any fun b => absTrigger b s.value
        | none => false, eh) ∧
    (∀ out eh', eh.check_filters samples = some (out, eh') →
      eh'.check_filters samples = some (out, eh')) := by
  have h1 : eh.check_filters samples =
      some (samples.filter fun s =>
        match lookupAssoc eh.filter_set s.metric with
        | some bounds => bounds.any fun b => absTrigger b s.value
        | none => false, eh) := by
    unfold ElementHealth.check_filters
    rw [go_nonrel eh.filter_set samples eh.relative_state h]
  refine ⟨h1, fun out eh' h2 => ?_⟩
  rw [h1] at h2
  obtain ⟨rfl, rfl⟩ : (samples.filter fun s =>
      match lookupAssoc eh.filter_set s.metric with
      | some bounds => bounds.any fun b => absTrigger b s.value
      | none => false) = out ∧ eh = eh' := by
    simpa using h2
  exact h1

/-- C8 witness: a non-relative engine evaluated on a one-sample scrape
returns the sample and leaves the engine unchanged. -/
theorem C8_witness :
    ElementHealth.check_filters ⟨[("m", [.absUpper (.fin 1)])], []⟩
        [⟨"m", .gauge (.fin 2), [], 7⟩] =
      some ([⟨"m", .gauge (.fin 2), [], 7⟩], ⟨[("m", [.absUpper (.fin 1)])], []⟩) := by
  have h1 := (C8_nonrelative_idempotent ⟨[("m", [.absUpper (.fin 1)])], []⟩
    [⟨"m", .gauge (.fin 2), [], 7⟩]
    (by
      intro s hs bounds hb b hbb
      rcases List.mem_singleton.mp hs with rfl
      obtain rfl : [Bound.absUpper (.fin 1)] = bounds := by simpa [lookupAssoc] using hb
      rcases List.mem_singleton.mp hbb with rfl
      rfl)).1
  exact h1.trans (by decide)

/-- C10: evaluation never removes entries from the relative state: every
key present before the call is present after it; a key absent before and
present after can only be the metric of a scraped sample that has a filter
entry containing a relative bound; and the filter set itself is unchanged
by evaluation. -/
theorem C10_state_monotone (eh : ElementHealth) (samples out : List Sample)
    (eh' : ElementHealth) (h : eh.check_filters samples = some (out, eh')) :
    eh'.filter_set = eh.filter_set ∧
    (∀ k, (lookupAssoc eh.relative_state k).isSome = true →
      (lookupAssoc eh'.relative_state k).isSome = true) ∧
    (∀ k, lookupAssoc eh.relative_state k = none →
      (lookupAssoc eh'.relative_state k).isSome = true →
      ∃ s ∈ samples, s.metric = k ∧
        ∃ bounds, lookupAssoc eh.filter_set s.metric = some bounds ∧
          ∃ b ∈ bounds, b.is_relative = true) := by
  unfold ElementHealth.check_filters at h
  cases hg : checkFiltersGo eh.filter_set samples eh.relative_state with
  | none =>
    rw [hg] at h
    exact Option.noConfusion h
  | some p =>
    cases p with
    | mk out0 st0 =>
      rw [hg] at h
      obtain ⟨rfl, rfl⟩ : out = out0 ∧ eh' = { eh with relative_state := st0 } := by
        simpa [and_comm] using h.symm
      refine ⟨rfl, ?_, ?_⟩
      · intro k hk
        exact go_preserves_keys eh.filter_set samples eh.relative_state st0 out hg k hk
      · intro k hk hk'
        exact go_new_key eh.filter_set samples eh.relative_state st0 out hg k hk hk'

/-- C10 witness: first sight of a metric with a relative bound creates a
state entry and leaves the filter set unchanged. -/
theorem C10_witness :
    (ElementHealth.check_filters ⟨[("m", [.rateUpper (.fin 1) 1000000])], []⟩
        [⟨"m", .gauge (.fin 5), [], 0⟩] =
      some ([], ⟨[("m", [.rateUpper (.fin 1) 1000000])],
        [("m", ⟨"m", .gauge (.fin 5), [], 0⟩)]⟩)) ∧
    (⟨[("m", [.rateUpper (.fin 1) 1000000])],
        [("m", ⟨"m", .gauge (.fin 5), [], 0⟩)]⟩ : ElementHealth).filter_set =
      (⟨[("m", [.rateUpper (.fin 1) 1000000])], []⟩ : ElementHealth).filter_set := by
  refine ⟨by decide, ?_⟩
  exact (C10_state_monotone ⟨[("m", [.rateUpper (.fin 1) 1000000])], []⟩
    [⟨"m", .gauge (.fin 5), [], 0⟩] []
    ⟨[("m", [.rateUpper (.fin 1) 1000000])], [("m", ⟨"m", .gauge (.fin 5), [], 0⟩)]⟩
    (by decide)).1
end WPA
